import Mathlib

/-!
Verification of the solc-fuzz differential-testing orchestrator.

This file gives a shallow embedding of the orchestrator core:

* `Evmc`    — the execution harness `runEVM` (src evmc.ts): process outcome
  handling, marker parsing, dump-file cleanup.
* `Compile` — the compilation dispatcher (src compile.ts): the `Result`
  record, `Result.bytecode`, and `compile` with its catch-all failure
  normalization.
* the call planner `Fuzzer` (src fuzzer.ts): random parameter generation,
  the per-iteration call plan, `fuzz`, and `emptyFuzzingResult`.
* `Runner`  — the per-iteration orchestration loop of `run` (src eof.ts,
  the variant returning compilationFailures and fuzzingFailures):
  per-version compile/fuzz dispatch (`iterStage1`), divergence
  classification (`classifyIteration`), and `saveVariant`.

External collaborators (the solc process, the EVM process, the ABI
encoder, the AST writer, the crypto random source, regex matching and
JSON decoding of process output) are modelled as explicit oracle
parameters; everything the orchestrator itself does with their answers
is translated from the source.
-/

/- ===================== Call planner data model ===================== -/

/-- Semantic parameter type as resolved by `InferType`: the fuzzer only
handles `IntType` (signedness and bit width); every other type node falls
through to `undefined`. -/
inductive TypeNode where
  | intType (signed : Bool) (nBits : Nat)
  | other
deriving DecidableEq

/-- A function declaration of the target contract: name plus resolved
parameter types. -/
structure FunctionDefinition where
  name : String
  parameters : List TypeNode
deriving DecidableEq

/-- A contract of the source unit: name plus its functions. -/
structure ContractDefinition where
  name : String
  functions : List FunctionDefinition
deriving DecidableEq

/-- A parsed source unit: its contracts in order. -/
structure SourceUnit where
  contracts : List ContractDefinition
deriving DecidableEq

/- ===================== Execution harness (evmc.ts) ===================== -/

namespace Evmc

/-- One emitted EVM log entry. -/
structure EVMLog where
  address : String
  topics : List String
  data : String
deriving DecidableEq

/-- Storage dump: slot to value mapping, as decoded from the storage dump
file. -/
abbrev EVMStorage := List (String × String)

/-- The status/output pair parsed from the VM process standard output
(`Result` in evmc.ts; the status is one of success, revert, out of gas,
no-op, kept as a string as in the source where it is produced by a cast). -/
structure Result where
  result : String
  output : String
deriving DecidableEq

/-- Normalized result of one VM invocation. -/
structure RunEVMResult where
  result : Result
  storage : EVMStorage
  logs : List EVMLog
deriving DecidableEq

/-- The `runEVM` close-handler, translated from evmc.ts. The child process
outcome is given by `exitCode`, `stdout`, `stderr`; `storageParse` and
`logsParse` stand for reading and JSON-decoding the two dump files (error
on a thrown parse exception); `resultMatch` and `outputMatch` stand for the
capture group of `stdout.match` with the Result and Output regexes. Returns
the settled promise value together with two flags telling whether the
storage dump file and the logs dump file were removed before the handler
finished. In the source the two `fs.rm` calls sit after the
if/else and every rejecting branch returns early, so only the resolving
path reaches them. -/
def runEVM (exitCode : Int) (stdout stderr : String)
    (storageParse : Except String EVMStorage)
    (logsParse : Except String (List EVMLog))
    (resultMatch outputMatch : Option String) :
    Except String RunEVMResult × Bool × Bool :=
  if exitCode = 0 then
    match storageParse with
    | .error e => (.error e, false, false)
    | .ok storage =>
      match logsParse with
      | .error e => (.error e, false, false)
      | .ok logs =>
        match resultMatch with
        | none => (.error stdout, false, false)
        | some r =>
          let runResult := r.trim
          let output := (outputMatch.map String.trim).getD ""
          (.ok { result := { result := runResult, output := output },
                 storage := storage, logs := logs }, true, true)
  else
    (.error stderr, false, false)

end Evmc

/- ===================== Call planner (fuzzer.ts) ===================== -/

/-- The argument record passed to `runEVM` by `Fuzzer.fuzz`. -/
structure RunArgs where
  bytecode : String
  input : String
  revision : Nat
deriving DecidableEq

/-- The per-backend fuzzing result record. -/
structure FuzzingResult where
  runResult : Evmc.RunEVMResult
  version : String
  encodedCall : String
  callParameters : List Int
  functionName : String
deriving DecidableEq

/-- The call planner state after construction: the encoded call and the
parameter values are stored once and shared by every later `fuzz` call. -/
structure Fuzzer where
  functionCall : String
  testFunction : FunctionDefinition
  callParameters : List Int
  testCallFunction : String
  version : String
deriving DecidableEq

/-- `generateRandomValue` from fuzzer.ts. `rand b` stands for the
cryptographically random draw `random(b)`, a natural number below `2 ^ b`.
For a signed integer the sign is drawn first (`random(1) === 1n`) and the
magnitude uses one bit less; non-integer types yield `undefined`. -/
def generateRandomValue (rand : Nat → Nat) : TypeNode → Option Int
  | .intType signed nBits =>
    if signed then
      if rand 1 = 1 then
        some (-((rand (nBits - 1) : Nat) : Int))
      else
        some ((rand (nBits - 1) : Nat) : Int)
    else
      some ((rand nBits : Nat) : Int)
  | .other => none

/-- `generateCallParameters` from fuzzer.ts: one random value per declared
parameter; the `assert` on a missing value throws, modelled as an error. -/
def generateCallParameters (rand : Nat → Nat) : List TypeNode → Except String (List Int)
  | [] => .ok []
  | t :: rest =>
    match generateRandomValue rand t with
    | none => .error "Missing random value"
    | some v =>
      match generateCallParameters rand rest with
      | .error e => .error e
      | .ok vs => .ok (v :: vs)

/-- The `Fuzzer` constructor: look up the target function in the first
contract (reading a member of `vContracts[0]` when there is no contract
throws), generate the call parameters, then ABI-encode the call once.
`encodeO` stands for the external `encodeFunctionCall`, given the function
name, the declared parameter types and the generated values. -/
def mkFuzzer (encodeO : String → List TypeNode → List Int → String) (rand : Nat → Nat)
    (unit : SourceUnit) (testCallFunction version : String) : Except String Fuzzer :=
  match unit.contracts.head? with
  | none => .error "TypeError"
  | some c =>
    match c.functions.find? (fun fn => fn.name == testCallFunction) with
    | none => .error ("Function " ++ testCallFunction ++ " not found in contract")
    | some tf =>
      match generateCallParameters rand tf.parameters with
      | .error e => .error e
      | .ok params =>
        .ok { functionCall := encodeO testCallFunction tf.parameters params,
              testFunction := tf,
              callParameters := params,
              testCallFunction := testCallFunction,
              version := version }

/-- The arguments `Fuzzer.fuzz` passes to `runEVM`: the stored encoded call
as input, and revision 14 for the eof backend, 13 otherwise. -/
def Fuzzer.fuzzArgs (f : Fuzzer) (bytecode version : String) : RunArgs :=
  { bytecode := bytecode,
    input := f.functionCall,
    revision := if version == "eof" then 14 else 13 }

/-- `Fuzzer.fuzz` from fuzzer.ts: invoke the VM (oracle `runO`) with the
stored call, and assemble the fuzzing result from the stored per-iteration
fields (note the source stores `this.version`, the constructor version, in
the result, not the `version` argument). A rejected `runEVM` promise
propagates. -/
def Fuzzer.fuzz (f : Fuzzer) (runO : RunArgs → Except String Evmc.RunEVMResult)
    (bytecode version : String) : Except String FuzzingResult :=
  match runO (f.fuzzArgs bytecode version) with
  | .error e => .error e
  | .ok rr =>
    .ok { runResult := rr,
          version := f.version,
          encodedCall := f.functionCall,
          callParameters := f.callParameters,
          functionName := f.testCallFunction }

/-- `Fuzzer.emptyFuzzingResult` from fuzzer.ts: the placeholder result used
for a backend that compiled but could not be executed: status no-op, empty
output, empty storage, no logs, with the stored call plan attached. -/
def Fuzzer.emptyFuzzingResult (f : Fuzzer) (version : String) : FuzzingResult :=
  { runResult := { result := { result := "no-op", output := "" },
                   storage := [], logs := [] },
    version := version,
    encodedCall := f.functionCall,
    callParameters := f.callParameters,
    functionName := f.testCallFunction }

/- ===================== Compilation dispatcher (compile.ts) ===================== -/

namespace Compile

/-- The exception caught by `compile`: either a `CompileFailedError` (an
`Error` with a message and a list of failures, each failure carrying a list
of diagnostic strings), or any other thrown value, whose `message` property
is present for `Error` values and absent (undefined) when the rejected
value is a plain string, as the eof wrapper rejections are. -/
inductive CompileException where
  | compileFailed (message : String) (failures : List (List String))
  | other (message : Option String)
deriving DecidableEq

/-- The error text computed by the catch block of `compile`: start from
`e.message` and, for a `CompileFailedError`, append each diagnostic of each
failure on its own line. For other exceptions the text is just the message,
which is undefined for non-Error rejections. -/
def diagnosticText : CompileException → Option String
  | .compileFailed msg failures =>
    some (failures.foldl (fun acc errs => errs.foldl (fun a e => a ++ "\n" ++ e) acc) msg)
  | .other m => m

/-- The `Result` record of compile.ts. The compiler JSON is modelled by
its contract map: for the single compiled file, contract name to the
(possibly absent) bytecode object string. `result` is absent on failure. -/
structure Result where
  success : Bool
  result : Option (List (String × Option String))
  error : Option String
  version : String
deriving DecidableEq

/-- `Result.bytecode` from compile.ts: throws "compilation failed" when
`success` is false; for the eof backend reads `bin` of the first contract
entry (a member read on a missing entry throws); otherwise looks the
contract name up in the per-file map (again, a member read on a missing
contract throws). -/
def Result.bytecode (r : Result) (contractName : String) : Except String (Option String) :=
  if r.success = false then
    .error "compilation failed"
  else if r.version == "eof" then
    match r.result with
    | none => .ok none
    | some contracts =>
      match contracts.head? with
      | none => .error "TypeError"
      | some c => .ok c.2
  else
    match r.result with
    | none => .ok none
    | some contracts =>
      match contracts.lookup contractName with
      | none => .error "TypeError"
      | some b => .ok b

/-- `compile` from compile.ts: serialize and invoke the compiler (the
combined outcome of `_compile` is the oracle argument), and normalize:
success wraps the compiler data, any caught exception becomes a
`success:false` result carrying `diagnosticText`. -/
def compile (version : String)
    (outcome : Except CompileException (List (String × Option String))) : Result :=
  match outcome with
  | .ok res => { success := true, result := some res, error := none, version := version }
  | .error e => { success := false, result := none, error := diagnosticText e, version := version }

end Compile

/- ===================== Orchestrator loop (eof.ts run) ===================== -/

namespace Runner

/-- `deepEqual` from eof.ts: `deepStrictEqual` in a try/catch, modelled as
decidable structural equality. -/
def deepEqual {α : Type} [DecidableEq α] (a b : α) : Bool := a == b

/-- The file system as a map from path to the content of the existing
file. -/
abbrev FileSystem := String → Option String

/-- `exists` from utils.ts (the name is reserved in Lean): `stat` succeeds
exactly on present paths; ENOENT means absent. -/
def existsFile (fs : FileSystem) (p : String) : Bool := (fs p).isSome

/-- `saveVariant` from eof.ts: write the serialized variant (`content`,
produced by the external writer) only when the file does not already
exist. -/
def saveVariant (fs : FileSystem) (variantFileName : String) (content : String) : FileSystem :=
  if existsFile fs variantFileName then fs
  else Function.update fs variantFileName (some content)

/-- The run status a fuzzing-result slot contributes to the status set
(`result?.runResult.result.result`): undefined for a missing result. -/
def statusOf : Option FuzzingResult → Option String
  | none => none
  | some fr => some fr.runResult.result.result

/-- The base-outcome predicate of eof.ts:
`result?.runResult.result.result === "success"`, false on a missing
result. -/
def isSuccessResult : Option FuzzingResult → Bool
  | none => false
  | some fr => fr.runResult.result.result == "success"

/-- The record-emitting loop over `fuzzingResults.entries()` in eof.ts: a
missing result emits a no-fuzzing record with the placeholder result for
`versions[index]`; the base entry (compared by object identity, hence by
its index) is skipped; any other result differing from the base in output,
storage or logs emits an output-mismatch record. `i` is the current
index. -/
def mismatchLoop (variantFileName : String) (versions : List String) (f : Fuzzer)
    (baseIdx : Nat) (base : FuzzingResult) :
    Nat → List (Option FuzzingResult) → List (String × String × FuzzingResult)
  | _, [] => []
  | i, none :: rest =>
    ("no-fuzzing", variantFileName, f.emptyFuzzingResult (versions.getD i "")) ::
      mismatchLoop variantFileName versions f baseIdx base (i + 1) rest
  | i, some fr :: rest =>
    if i = baseIdx then
      mismatchLoop variantFileName versions f baseIdx base (i + 1) rest
    else if fr.runResult.result.output != base.runResult.result.output
        || !(deepEqual fr.runResult.storage base.runResult.storage)
        || !(deepEqual fr.runResult.logs base.runResult.logs) then
      ("output-mismatch", variantFileName, fr) ::
        mismatchLoop variantFileName versions f baseIdx base (i + 1) rest
    else
      mismatchLoop variantFileName versions f baseIdx base (i + 1) rest

/-- The per-iteration classification of eof.ts run, lines after the
per-version loop: skip entirely when every compilation failed; collect a
compilation-failure record per failed compilation; skip comparison when
the status set has size one; pick the first success-status result as the
base (the source compares `baseResult === undefined`, and `find` can only
return a defined entry when the predicate held); then run the
record-emitting loop. Returns the records appended to compilationFailures
and fuzzingFailures by this iteration. -/
def classifyIteration (variantFileName : String) (versions : List String) (f : Fuzzer)
    (crs : List Compile.Result) (frs : List (Option FuzzingResult)) :
    List (String × Compile.Result) × List (String × String × FuzzingResult) :=
  if crs.all (fun r => !r.success) then
    ([], [])
  else
    let compilationFailures :=
      (crs.filter (fun r => !r.success)).map (fun r => (variantFileName, r))
    if ((frs.map statusOf).dedup).length = 1 then
      (compilationFailures, [])
    else
      match frs.find? isSuccessResult with
      | some (some base) =>
        (compilationFailures,
          mismatchLoop variantFileName versions f (frs.findIdx isSuccessResult) base 0 frs)
      | some none => (compilationFailures, [])
      | none => (compilationFailures, [])

/-- The per-iteration environment: the external collaborators one
iteration of run uses, fixed before the version loop starts. `compileO v`
is the outcome of `compile(variant, v)`; `runO` is the VM invocation used
by `fuzzer.fuzz`. -/
structure IterEnv where
  compileO : String → Compile.Result
  contractName : String
  fuzzer : Fuzzer
  runO : RunArgs → Except String Evmc.RunEVMResult
  variantFileName : String

/-- The per-version loop of one run iteration (eof.ts): compile each
version; a failed compilation is recorded and fuzzing is skipped; a
successful compilation without bytecode records an undefined fuzzing
result; otherwise the shared fuzzer is invoked. A thrown bytecode read or
a rejected `fuzz` promise is not caught and aborts the iteration. -/
def iterStage1 (env : IterEnv) : List String → Except String (List Compile.Result × List (Option FuzzingResult))
  | [] => .ok ([], [])
  | v :: rest =>
    let cr := env.compileO v
    if cr.success then
      match cr.bytecode env.contractName with
      | .error e => .error e
      | .ok none =>
        match iterStage1 env rest with
        | .error e => .error e
        | .ok (crs, frs) => .ok (cr :: crs, none :: frs)
      | .ok (some bc) =>
        match env.fuzzer.fuzz env.runO bc v with
        | .error e => .error e
        | .ok fr =>
          match iterStage1 env rest with
          | .error e => .error e
          | .ok (crs, frs) => .ok (cr :: crs, some fr :: frs)
    else
      match iterStage1 env rest with
      | .error e => .error e
      | .ok (crs, frs) => .ok (cr :: crs, frs)

/-- One full iteration of run: the per-version loop followed by
classification. An uncaught rejection in the loop aborts the iteration
before any record is produced. -/
def runIteration (versions : List String) (env : IterEnv) :
    Except String (List (String × Compile.Result) × List (String × String × FuzzingResult)) :=
  match iterStage1 env versions with
  | .error e => .error e
  | .ok (crs, frs) =>
    .ok (classifyIteration env.variantFileName versions env.fuzzer crs frs)

/-- The iteration loop of run: each iteration environment in order, its
records appended to the accumulated failure lists; an uncaught rejection
aborts the whole run. -/
def run (versions : List String) :
    List IterEnv →
    Except String (List (String × Compile.Result) × List (String × String × FuzzingResult))
  | [] => .ok ([], [])
  | env :: rest =>
    match runIteration versions env with
    | .error e => .error e
    | .ok (cf, ff) =>
      match run versions rest with
      | .error e => .error e
      | .ok (cfs, ffs) => .ok (cf ++ cfs, ff ++ ffs)

end Runner

/- ===================== Shared fixtures for witnesses ===================== -/

/-- A degenerate random oracle: every draw is zero. -/
def rand0 : Nat → Nat := fun _ => 0

/-- An empty file system. -/
def fsEmpty : Runner.FileSystem := fun _ => none

/-- A file system where every path exists with content x. -/
def fsFull : Runner.FileSystem := fun _ => some "x"

/- ===================== C8 ===================== -/

/-- C8: for every N-bit unsigned integer parameter the generated random
value lies in `[0, 2^N)`; for every N-bit signed integer parameter the
value lies in `[-(2^(N-1)), 2^(N-1))` and is the magnitude draw negated
exactly when the one-bit sign draw is one (the 50/50 sign draw). -/
theorem generateRandomValue_bounds :
    ∀ (rand : Nat → Nat), (∀ b, rand b < 2 ^ b) →
      ∀ (N : Nat),
        (∀ v, generateRandomValue rand (.intType false N) = some v →
          0 ≤ v ∧ v < 2 ^ N) ∧
        (1 ≤ N → ∀ v, generateRandomValue rand (.intType true N) = some v →
          -(2 ^ (N - 1) : Int) ≤ v ∧ v < 2 ^ (N - 1) ∧
          v = (if rand 1 = 1 then -((rand (N - 1) : Nat) : Int)
               else ((rand (N - 1) : Nat) : Int))) := by
  intro rand hrand N
  constructor
  · intro v hv
    have hgen : generateRandomValue rand (.intType false N) = some ((rand N : Nat) : Int) := by
      simp [generateRandomValue]
    rw [hgen] at hv
    have hv2 := Option.some.inj hv
    subst hv2
    refine ⟨Int.ofNat_nonneg _, ?_⟩
    have h := hrand N
    have h2 : ((rand N : Nat) : Int) < ((2 ^ N : Nat) : Int) := by exact_mod_cast h
    calc ((rand N : Nat) : Int) < ((2 ^ N : Nat) : Int) := h2
      _ = 2 ^ N := by push_cast; ring
  · intro hN v hv
    have hm : rand (N - 1) < 2 ^ (N - 1) := hrand (N - 1)
    have hmi : ((rand (N - 1) : Nat) : Int) < 2 ^ (N - 1) := by
      calc ((rand (N - 1) : Nat) : Int) < ((2 ^ (N - 1) : Nat) : Int) := by exact_mod_cast hm
        _ = 2 ^ (N - 1) := by push_cast; ring
    have hpos : (0 : Int) < 2 ^ (N - 1) := by positivity
    have hnn : (0 : Int) ≤ ((rand (N - 1) : Nat) : Int) := Int.ofNat_nonneg _
    have hgen : generateRandomValue rand (.intType true N)
        = if rand 1 = 1 then some (-((rand (N - 1) : Nat) : Int))
          else some ((rand (N - 1) : Nat) : Int) := by
      simp [generateRandomValue]
    rw [hgen] at hv
    by_cases hs : rand 1 = 1
    · rw [if_pos hs] at hv
      have hv2 := Option.some.inj hv
      subst hv2
      refine ⟨by linarith, by linarith, ?_⟩
      rw [if_pos hs]
    · rw [if_neg hs] at hv
      have hv2 := Option.some.inj hv
      subst hv2
      refine ⟨by linarith, hmi, ?_⟩
      rw [if_neg hs]

/-- C8 witness: the theorem applied to the all-zero oracle at width 8. -/
theorem generateRandomValue_bounds_witness :
    (0 : Int) ≤ 0 ∧ (0 : Int) < 2 ^ 8 :=
  (generateRandomValue_bounds rand0 (fun b => Nat.two_pow_pos b) 8).1 0 rfl

/- ===================== C9 ===================== -/

/-- C9: saveVariant is idempotent in the file path: a second call for the
same path performs no write, and an existing file is never overwritten. -/
theorem saveVariant_idempotent :
    ∀ (fs : Runner.FileSystem) (p c c2 : String),
      Runner.saveVariant (Runner.saveVariant fs p c) p c2 = Runner.saveVariant fs p c ∧
      (∀ c0, fs p = some c0 → Runner.saveVariant fs p c = fs) := by
  intro fs p c c2
  constructor
  · by_cases h : (fs p).isSome
    · simp [Runner.saveVariant, Runner.existsFile, h]
    · simp only [Runner.saveVariant, Runner.existsFile, h, if_false, Bool.false_eq_true]
      have hupd : (Function.update fs p (some c) p).isSome = true := by
        rw [Function.update_same]
        rfl
      simp [hupd]
  · intro c0 h0
    have h : (fs p).isSome = true := by rw [h0]; rfl
    simp [Runner.saveVariant, Runner.existsFile, h]

/-- C9 witness: the theorem applied to an empty and to a fully-populated
file system at a concrete path. -/
theorem saveVariant_idempotent_witness :
    Runner.saveVariant (Runner.saveVariant fsEmpty "a.variant.0.sol" "src1") "a.variant.0.sol" "src2"
      = Runner.saveVariant fsEmpty "a.variant.0.sol" "src1" ∧
    Runner.saveVariant fsFull "a.variant.0.sol" "src1" = fsFull :=
  ⟨(saveVariant_idempotent fsEmpty "a.variant.0.sol" "src1" "src2").1,
   (saveVariant_idempotent fsFull "a.variant.0.sol" "src1" "src2").2 "x" rfl⟩

/- ===================== C10 ===================== -/

/-- C10: for every compilation Result with success false, extracting
bytecode throws the "compilation failed" error instead of returning a
bytecode string or undefined. -/
theorem bytecode_requires_successful_compilation :
    ∀ (r : Compile.Result) (contractName : String), r.success = false →
      r.bytecode contractName = .error "compilation failed" := by
  intro r cn h
  simp [Compile.Result.bytecode, h]

/-- C10 witness: the theorem applied to a concrete failed result. -/
theorem bytecode_requires_successful_compilation_witness :
    Compile.Result.bytecode
      { success := false, result := none, error := some "boom", version := "0.8.27" } "C"
      = .error "compilation failed" :=
  bytecode_requires_successful_compilation
    { success := false, result := none, error := some "boom", version := "0.8.27" } "C" rfl

/- ===================== More shared fixtures ===================== -/

/-- A concrete fuzzer state. -/
def fzEx : Fuzzer :=
  { functionCall := "0xdeadbeef", testFunction := { name := "test", parameters := [] },
    callParameters := [1], testCallFunction := "test", version := "0.8.27" }

/-- A concrete successful fuzzing result. -/
def frSuccess : FuzzingResult :=
  { runResult := { result := { result := "success", output := "00" }, storage := [], logs := [] },
    version := "0.8.27", encodedCall := "0xdeadbeef", callParameters := [1],
    functionName := "test" }

/-- A concrete reverted fuzzing result. -/
def frRevert : FuzzingResult :=
  { runResult := { result := { result := "revert", output := "" }, storage := [], logs := [] },
    version := "0.8.27", encodedCall := "0xdeadbeef", callParameters := [1],
    functionName := "test" }

/-- A concrete successful compilation result with bytecode for contract C. -/
def crSuccess : Compile.Result :=
  { success := true, result := some [("C", some "6001")], error := none, version := "0.8.27" }

/-- A concrete failed compilation result. -/
def crFail : Compile.Result :=
  { success := false, result := none, error := some "err", version := "0.8.27" }

/- ===================== Helper lemmas ===================== -/

/-- When every compilation fails, the per-version loop records each
compilation result and never reaches bytecode extraction or fuzzing. -/
theorem iterStage1_all_fail (env : Runner.IterEnv) :
    ∀ versions : List String, (∀ v ∈ versions, (env.compileO v).success = false) →
      Runner.iterStage1 env versions = .ok (versions.map env.compileO, []) := by
  intro versions
  induction versions with
  | nil => intro h; rfl
  | cons v rest ih =>
    intro h
    have hv : (env.compileO v).success = false := h v (List.mem_cons_self v rest)
    have hrest := ih (fun u hu => h u (List.mem_cons_of_mem v hu))
    simp [Runner.iterStage1, hv, hrest]

/-- Characterization of `List.find?`: a found element satisfies the
predicate and sits at the first index whose element satisfies it. -/
theorem find?_first {α : Type} (p : α → Bool) :
    ∀ (l : List α) (b : α), l.find? p = some b →
      p b = true ∧ ∃ (i : Nat) (hi : i < l.length), l.get ⟨i, hi⟩ = b ∧
        ∀ (j : Nat) (hj : j < l.length), j < i → p (l.get ⟨j, hj⟩) = false := by
  intro l
  induction l with
  | nil => intro b hb; simp [List.find?] at hb
  | cons hd tl ih =>
    intro b hb
    by_cases hp : p hd
    · rw [List.find?_cons_of_pos _ hp] at hb
      have hhd : hd = b := Option.some.inj hb
      subst hhd
      refine ⟨hp, 0, by simp, rfl, ?_⟩
      intro j hj hj0
      omega
    · rw [List.find?_cons_of_neg _ hp] at hb
      obtain ⟨hpb, i, hi, hget, hfirst⟩ := ih b hb
      refine ⟨hpb, i + 1, by simpa using Nat.succ_lt_succ hi, hget, ?_⟩
      intro j hj hlt
      cases j with
      | zero => simpa using hp
      | succ k =>
        have hk : k < tl.length := by simpa using hj
        exact hfirst k hk (by omega)

/- ===================== C2 ===================== -/

/-- C2: if every backend compilation for an iteration has success false,
the iteration emits no records of any kind: both the compilation-failure
list and the fuzzing-failure list it contributes are empty. -/
theorem all_compile_failed_skips_iteration :
    ∀ (env : Runner.IterEnv) (versions : List String),
      (∀ v ∈ versions, (env.compileO v).success = false) →
      Runner.runIteration versions env = .ok ([], []) := by
  intro env versions h
  have h1 := iterStage1_all_fail env versions h
  simp only [Runner.runIteration]
  rw [h1]
  have hall : (versions.map env.compileO).all (fun r => !r.success) = true := by
    rw [List.all_eq_true]
    intro r hr
    obtain ⟨v, hv, rfl⟩ := List.mem_map.mp hr
    simp [h v hv]
  simp [Runner.classifyIteration, hall]

/-- A concrete iteration environment in which every compilation fails. -/
def envAllFail : Runner.IterEnv :=
  { compileO := fun v => { success := false, result := none, error := some "compile error", version := v },
    contractName := "C",
    fuzzer := fzEx,
    runO := fun _ => .error "unused",
    variantFileName := "seed.variant.0.sol" }

/-- C2 witness: the theorem applied to a concrete two-backend iteration
where both compilations fail. -/
theorem all_compile_failed_skips_iteration_witness :
    Runner.runIteration ["0.8.26", "eof"] envAllFail = .ok ([], []) :=
  all_compile_failed_skips_iteration envAllFail ["0.8.26", "eof"] (fun _ _ => rfl)

/- ===================== C3 ===================== -/

/-- C3: the base outcome picked by the comparison step is the first
fuzzing result, in configured order, whose run status is success; when no
fuzzing result has status success, the iteration performs no output
comparison and emits no fuzzing-failure record. -/
theorem base_outcome_is_first_success :
    ∀ (frs : List (Option FuzzingResult)),
      (∀ b, frs.find? Runner.isSuccessResult = some b →
        (∃ bfr, b = some bfr ∧ bfr.runResult.result.result = "success") ∧
        ∃ (i : Nat) (hi : i < frs.length), frs.get ⟨i, hi⟩ = b ∧
          ∀ (j : Nat) (hj : j < frs.length), j < i →
            Runner.isSuccessResult (frs.get ⟨j, hj⟩) = false) ∧
      ((∀ r ∈ frs, Runner.isSuccessResult r = false) →
        ∀ fn versions f crs, (Runner.classifyIteration fn versions f crs frs).2 = []) := by
  intro frs
  constructor
  · intro b hb
    obtain ⟨hpb, i, hi, hget, hfirst⟩ := find?_first Runner.isSuccessResult frs b hb
    refine ⟨?_, i, hi, hget, hfirst⟩
    cases b with
    | none => simp [Runner.isSuccessResult] at hpb
    | some bfr =>
      exact ⟨bfr, rfl, by simpa [Runner.isSuccessResult, beq_iff_eq] using hpb⟩
  · intro hnone fn versions f crs
    have hfind : frs.find? Runner.isSuccessResult = none :=
      List.find?_eq_none.mpr (fun x hx => by simp [hnone x hx])
    by_cases h1 : crs.all (fun r => !r.success) = true
    · simp [Runner.classifyIteration, h1]
    · by_cases h2 : ((frs.map Runner.statusOf).dedup).length = 1
      · simp [Runner.classifyIteration, h1, h2]
      · simp [Runner.classifyIteration, h1, h2, hfind]

/-- C3 witness: the theorem applied to a singleton success list and to a
list with no success result. -/
theorem base_outcome_is_first_success_witness :
    ((∃ bfr, (some frSuccess : Option FuzzingResult) = some bfr ∧
        bfr.runResult.result.result = "success") ∧
      ∃ (i : Nat) (hi : i < 1),
        ([some frSuccess] : List (Option FuzzingResult)).get ⟨i, hi⟩ = some frSuccess ∧
        ∀ (j : Nat) (hj : j < 1), j < i →
          Runner.isSuccessResult (([some frSuccess] : List (Option FuzzingResult)).get ⟨j, hj⟩) = false) ∧
    (Runner.classifyIteration "seed.variant.0.sol" ["0.8.26"] fzEx [crSuccess] [some frRevert]).2 = [] :=
  ⟨(base_outcome_is_first_success [some frSuccess]).1 (some frSuccess) (by decide),
   (base_outcome_is_first_success [some frRevert]).2 (by decide)
     "seed.variant.0.sol" ["0.8.26"] fzEx [crSuccess]⟩

/- ===================== C1 ===================== -/

/-- A fuzz call that returns ok reproduces the stored call plan fields
unchanged in its result. -/
theorem fuzz_preserves_call_plan (f : Fuzzer) (runO : RunArgs → Except String Evmc.RunEVMResult)
    (bytecode version : String) (fr : FuzzingResult) :
    f.fuzz runO bytecode version = .ok fr →
    fr.encodedCall = f.functionCall ∧ fr.callParameters = f.callParameters ∧
    fr.functionName = f.testCallFunction ∧ fr.version = f.version := by
  intro h
  unfold Fuzzer.fuzz at h
  revert h
  cases hro : runO (f.fuzzArgs bytecode version) with
  | error e => intro h; exact absurd h (by simp)
  | ok rr =>
    intro h
    simp only [Except.ok.injEq] at h
    subst h
    exact ⟨rfl, rfl, rfl, rfl⟩

/-- Every fuzzing result produced by the per-version loop of one iteration
carries the iteration fuzzer's stored encoded call and parameter list. -/
theorem iterStage1_call_plan (env : Runner.IterEnv) :
    ∀ (versions : List String) (crs : List Compile.Result) (frs : List (Option FuzzingResult)),
      Runner.iterStage1 env versions = .ok (crs, frs) →
      ∀ ofr ∈ frs, ∀ fr, ofr = some fr →
        fr.encodedCall = env.fuzzer.functionCall ∧
        fr.callParameters = env.fuzzer.callParameters := by
  intro versions
  induction versions with
  | nil =>
    intro crs frs h
    simp only [Runner.iterStage1, Except.ok.injEq, Prod.mk.injEq] at h
    obtain ⟨hc, hf⟩ := h
    subst hf
    intro ofr hmem
    simp at hmem
  | cons v rest ih =>
    intro crs frs h
    simp only [Runner.iterStage1] at h
    split at h
    · split at h
      · exact absurd h (by simp)
      · split at h
        · exact absurd h (by simp)
        · rename_i crs2 frs2 hrec
          simp only [Except.ok.injEq, Prod.mk.injEq] at h
          obtain ⟨hc, hf⟩ := h
          subst hf
          intro ofr hmem fr hofr
          rcases List.mem_cons.mp hmem with hhd | htl
          · rw [hhd] at hofr; exact absurd hofr (by simp)
          · exact ih crs2 frs2 hrec ofr htl fr hofr
      · rename_i bc hbc
        split at h
        · exact absurd h (by simp)
        · rename_i fr0 hfz
          split at h
          · exact absurd h (by simp)
          · rename_i crs2 frs2 hrec
            simp only [Except.ok.injEq, Prod.mk.injEq] at h
            obtain ⟨hc, hf⟩ := h
            subst hf
            intro ofr hmem fr hofr
            rcases List.mem_cons.mp hmem with hhd | htl
            · rw [hhd] at hofr
              have hfr : fr0 = fr := Option.some.inj hofr
              subst hfr
              have hp := fuzz_preserves_call_plan env.fuzzer env.runO bc v fr0 hfz
              exact ⟨hp.1, hp.2.1⟩
            · exact ih crs2 frs2 hrec ofr htl fr hofr
    · split at h
      · exact absurd h (by simp)
      · rename_i crs2 frs2 hrec
        simp only [Except.ok.injEq, Prod.mk.injEq] at h
        obtain ⟨hc, hf⟩ := h
        subst hf
        intro ofr hmem
        exact ih crs2 frs2 hrec ofr hmem

/-- C1: the call parameters and the encoded call are fixed at Fuzzer
construction (the constructor stores the generated parameters and the
encoding of exactly those parameters), every fuzz invocation sends the
stored encoded call as the VM input regardless of bytecode and version,
every ok fuzzing result carries the stored call plan unchanged, and in one
run iteration every produced fuzzing result carries the shared fuzzer's
stored encoded call and parameter list. -/
theorem call_plan_generated_once_and_shared :
    ∀ (f : Fuzzer) (runO : RunArgs → Except String Evmc.RunEVMResult) (b v : String),
      ((f.fuzzArgs b v).input = f.functionCall) ∧
      (∀ fr, f.fuzz runO b v = .ok fr →
        fr.encodedCall = f.functionCall ∧ fr.callParameters = f.callParameters) ∧
      (∀ (encodeO : String → List TypeNode → List Int → String) (rand : Nat → Nat)
          (unit : SourceUnit) (tcf ver : String) (f0 : Fuzzer),
        mkFuzzer encodeO rand unit tcf ver = .ok f0 →
        generateCallParameters rand f0.testFunction.parameters = .ok f0.callParameters ∧
        f0.functionCall = encodeO tcf f0.testFunction.parameters f0.callParameters) ∧
      (∀ (env : Runner.IterEnv) (versions : List String) (crs : List Compile.Result)
          (frs : List (Option FuzzingResult)),
        Runner.iterStage1 env versions = .ok (crs, frs) →
        ∀ ofr ∈ frs, ∀ fr, ofr = some fr →
          fr.encodedCall = env.fuzzer.functionCall ∧
          fr.callParameters = env.fuzzer.callParameters) := by
  intro f runO b v
  refine ⟨rfl, ?_, ?_, ?_⟩
  · intro fr h
    have hp := fuzz_preserves_call_plan f runO b v fr h
    exact ⟨hp.1, hp.2.1⟩
  · intro encodeO rand unit tcf ver f0 h
    simp only [mkFuzzer] at h
    split at h
    · exact absurd h (by simp)
    · split at h
      · exact absurd h (by simp)
      · split at h
        · exact absurd h (by simp)
        · rename_i params hgp
          simp only [Except.ok.injEq] at h
          subst h
          exact ⟨hgp, rfl⟩
  · exact iterStage1_call_plan

/-- A VM oracle that always succeeds with the concrete success outcome. -/
def runOk : RunArgs → Except String Evmc.RunEVMResult := fun _ => .ok frSuccess.runResult

/-- A concrete iteration environment in which the compilation succeeds
with bytecode and the VM succeeds. -/
def envOk : Runner.IterEnv :=
  { compileO := fun _ => crSuccess,
    contractName := "C",
    fuzzer := fzEx,
    runO := runOk,
    variantFileName := "seed.variant.0.sol" }

/-- A concrete ABI-encoding oracle. -/
def encodeEx : String → List TypeNode → List Int → String := fun _ _ _ => "0xabc"

/-- A concrete source unit with one contract and one target function. -/
def unitEx : SourceUnit :=
  { contracts := [{ name := "C",
                    functions := [{ name := "test", parameters := [.intType false 8] }] }] }

/-- The fuzzer state the constructor builds for `unitEx` with the all-zero
random oracle. -/
def fz0 : Fuzzer :=
  { functionCall := "0xabc",
    testFunction := { name := "test", parameters := [.intType false 8] },
    callParameters := [0],
    testCallFunction := "test",
    version := "0.8.27" }

/-- C1 witness: the theorem applied to concrete fuzzer, oracles, source
unit and a one-backend iteration. -/
theorem call_plan_generated_once_and_shared_witness :
    (fzEx.fuzzArgs "6001" "eof").input = fzEx.functionCall ∧
    (frSuccess.encodedCall = fzEx.functionCall ∧ frSuccess.callParameters = fzEx.callParameters) ∧
    (generateCallParameters rand0 fz0.testFunction.parameters = .ok fz0.callParameters ∧
      fz0.functionCall = encodeEx "test" fz0.testFunction.parameters fz0.callParameters) ∧
    (frSuccess.encodedCall = envOk.fuzzer.functionCall ∧
      frSuccess.callParameters = envOk.fuzzer.callParameters) :=
  ⟨(call_plan_generated_once_and_shared fzEx runOk "6001" "eof").1,
   (call_plan_generated_once_and_shared fzEx runOk "6001" "eof").2.1 frSuccess rfl,
   (call_plan_generated_once_and_shared fzEx runOk "6001" "eof").2.2.1
     encodeEx rand0 unitEx "test" "0.8.27" fz0 rfl,
   (call_plan_generated_once_and_shared fzEx runOk "6001" "eof").2.2.2
     envOk ["0.8.27"] [crSuccess] [some frSuccess] rfl (some frSuccess) (by simp) frSuccess rfl⟩

/- ===================== C5 ===================== -/

/-- C5: the scratch dump files are NOT deleted on every exit path of
runEVM. The deletion flags are false on the nonzero-exit path, on the
missing result-marker path and on the dump-file parse-error path; only the
resolving success path reaches the two rm calls. This contradicts the
claimed scoped-resource obligation and matches the cleanup bug the design
notes call out. -/
theorem runEVM_cleanup_skipped_on_failure :
    Evmc.runEVM 1 "" "boom" (.ok []) (.ok []) none none = (.error "boom", false, false) ∧
    Evmc.runEVM 0 "garbage" "" (.ok []) (.ok []) none none = (.error "garbage", false, false) ∧
    Evmc.runEVM 0 "" "" (.error "SyntaxError") (.ok []) (some "success") none
      = (.error "SyntaxError", false, false) ∧
    (Evmc.runEVM 0 "Result: success" "" (.ok []) (.ok []) (some "success") none).2 = (true, true) :=
  ⟨rfl, rfl, rfl, rfl⟩

/- ===================== C6 ===================== -/

/-- C6: a nonzero VM exit makes runEVM reject with the captured standard
error text; inside one iteration a rejected fuzz call (after a successful
compilation with bytecode) aborts the iteration with that error, the run
loop propagates an iteration error instead of catching it, while a failed
compilation is absorbed: the loop just records the result and goes on with
the remaining versions. -/
theorem vm_process_failure_aborts_run :
    (∀ (exitCode : Int) (stdout stderr : String) storageParse logsParse resultMatch outputMatch,
      exitCode ≠ 0 →
      Evmc.runEVM exitCode stdout stderr storageParse logsParse resultMatch outputMatch
        = (.error stderr, false, false)) ∧
    (∀ (env : Runner.IterEnv) (v : String) (rest : List String) (bc e : String),
      (env.compileO v).success = true →
      (env.compileO v).bytecode env.contractName = .ok (some bc) →
      env.fuzzer.fuzz env.runO bc v = .error e →
      Runner.runIteration (v :: rest) env = .error e) ∧
    (∀ (versions : List String) (env : Runner.IterEnv) (envs : List Runner.IterEnv) (e : String),
      Runner.runIteration versions env = .error e →
      Runner.run versions (env :: envs) = .error e) ∧
    (∀ (env : Runner.IterEnv) (v : String) (rest : List String),
      (env.compileO v).success = false →
      Runner.iterStage1 env (v :: rest)
        = (Runner.iterStage1 env rest).map (fun p => (env.compileO v :: p.1, p.2))) := by
  refine ⟨?_, ?_, ?_, ?_⟩
  · intro ec so se sp lp rm om h
    simp [Evmc.runEVM, h]
  · intro env v rest bc e h1 h2 h3
    simp [Runner.runIteration, Runner.iterStage1, h1, h2, h3]
  · intro versions env envs e h
    simp [Runner.run, h]
  · intro env v rest h
    simp only [Runner.iterStage1, h]
    cases hr : Runner.iterStage1 env rest with
    | error e => simp [hr, Except.map]
    | ok p => simp [hr, Except.map]

/-- A concrete iteration environment in which compilation succeeds and the
VM invocation rejects. -/
def envVmFail : Runner.IterEnv :=
  { compileO := fun _ => crSuccess,
    contractName := "C",
    fuzzer := fzEx,
    runO := fun _ => .error "vm boom",
    variantFileName := "seed.variant.0.sol" }

/-- C6 witness: the theorem applied to a nonzero exit code and a concrete
one-backend iteration whose VM call rejects. -/
theorem vm_process_failure_aborts_run_witness :
    Evmc.runEVM 1 "" "vm boom" (.ok []) (.ok []) none none = (.error "vm boom", false, false) ∧
    Runner.runIteration ["0.8.27"] envVmFail = .error "vm boom" ∧
    Runner.run ["0.8.27"] [envVmFail] = .error "vm boom" ∧
    Runner.iterStage1 envAllFail ["0.8.26"]
      = (Runner.iterStage1 envAllFail []).map
          (fun p => (envAllFail.compileO "0.8.26" :: p.1, p.2)) :=
  ⟨vm_process_failure_aborts_run.1 1 "" "vm boom" (.ok []) (.ok []) none none (by decide),
   vm_process_failure_aborts_run.2.1 envVmFail "0.8.27" [] "6001" "vm boom" rfl rfl rfl,
   vm_process_failure_aborts_run.2.2.1 ["0.8.27"] envVmFail [] "vm boom"
     (vm_process_failure_aborts_run.2.1 envVmFail "0.8.27" [] "6001" "vm boom" rfl rfl rfl),
   vm_process_failure_aborts_run.2.2.2 envAllFail "0.8.26" [] rfl⟩

/- ===================== C4 ===================== -/

/-- A concrete iteration environment whose single backend compiles
successfully but yields no bytecode for the target contract. -/
def envNoBytecode : Runner.IterEnv :=
  { compileO := fun v => { success := true, result := some [("C", none)], error := none, version := v },
    contractName := "C",
    fuzzer := fzEx,
    runO := fun _ => .error "unused",
    variantFileName := "seed.variant.0.sol" }

/-- C4 counterexample: a backend whose compilation succeeded but whose
bytecode extraction failed, yet the iteration emits no record at all: with
a single such backend the status set has size one, so the iteration is
skipped before the no-fuzzing record could be produced. -/
theorem nofuzz_record_not_always_emitted :
    (envNoBytecode.compileO "0.8.27").success = true ∧
    (envNoBytecode.compileO "0.8.27").bytecode envNoBytecode.contractName = .ok none ∧
    Runner.runIteration ["0.8.27"] envNoBytecode = .ok ([], []) :=
  ⟨rfl, rfl, rfl⟩

/-- Every missing entry of the fuzzing-result list contributes its
no-fuzzing record (at its index offset) to the record-emitting loop. -/
theorem mismatchLoop_mem_nofuzz (fn : String) (versions : List String) (f : Fuzzer)
    (bIdx : Nat) (base : FuzzingResult) :
    ∀ (frs : List (Option FuzzingResult)) (i0 i : Nat) (hi : i < frs.length),
      frs.get ⟨i, hi⟩ = none →
      ("no-fuzzing", fn, f.emptyFuzzingResult (versions.getD (i0 + i) ""))
        ∈ Runner.mismatchLoop fn versions f bIdx base i0 frs := by
  intro frs
  induction frs with
  | nil => intro i0 i hi; exact absurd hi (by simp)
  | cons hd tl ih =>
    intro i0 i hi hget
    cases i with
    | zero =>
      cases hd with
      | none =>
        simp only [Runner.mismatchLoop, Nat.add_zero]
        exact List.mem_cons_self _ _
      | some fr => simp at hget
    | succ j =>
      have hj : j < tl.length := by simpa using hi
      have hget2 : tl.get ⟨j, hj⟩ = none := by simpa using hget
      have hmem := ih (i0 + 1) j hj hget2
      have harith : i0 + 1 + j = i0 + (j + 1) := by omega
      rw [harith] at hmem
      cases hd with
      | none =>
        simp only [Runner.mismatchLoop]
        exact List.mem_cons_of_mem _ hmem
      | some fr =>
        simp only [Runner.mismatchLoop]
        split
        · exact hmem
        · split
          · exact List.mem_cons_of_mem _ hmem
          · exact hmem

/-- The record-emitting loop produces exactly one no-fuzzing-tagged record
per missing entry of the fuzzing-result list. -/
theorem mismatchLoop_nofuzz_count (fn : String) (versions : List String) (f : Fuzzer)
    (bIdx : Nat) (base : FuzzingResult) :
    ∀ (frs : List (Option FuzzingResult)) (i0 : Nat),
      ((Runner.mismatchLoop fn versions f bIdx base i0 frs).filter
          (fun rec => rec.1 == "no-fuzzing")).length
        = (frs.filter (fun r => r.isNone)).length := by
  intro frs
  induction frs with
  | nil => intro i0; rfl
  | cons hd tl ih =>
    intro i0
    cases hd with
    | none =>
      simp only [Runner.mismatchLoop]
      rw [List.filter_cons, List.filter_cons]
      simp [ih (i0 + 1)]
    | some fr =>
      simp only [Runner.mismatchLoop]
      rw [List.filter_cons]
      split
      · rw [ih (i0 + 1)]
        simp
      · split
        · rw [List.filter_cons]
          have hne : (("output-mismatch" : String) == "no-fuzzing") = false := by decide
          simp [hne, ih (i0 + 1)]
        · rw [ih (i0 + 1)]
          simp

/-- C4 amended: a no-fuzzing record is emitted for a compiled backend
without bytecode only when the iteration reaches the comparison stage; at
that stage every missing fuzzing result yields exactly one no-fuzzing
record carrying the no-op placeholder, keyed by its index in the
fuzzing-result list. -/
theorem nofuzz_records_at_comparison_stage (fn : String) (versions : List String) (f : Fuzzer)
    (crs : List Compile.Result) (frs : List (Option FuzzingResult)) (base : FuzzingResult)
    (h1 : crs.all (fun r => !r.success) = false)
    (h2 : ((frs.map Runner.statusOf).dedup).length ≠ 1)
    (h3 : frs.find? Runner.isSuccessResult = some (some base)) :
    (∀ (i : Nat) (hi : i < frs.length), frs.get ⟨i, hi⟩ = none →
      ("no-fuzzing", fn, f.emptyFuzzingResult (versions.getD i ""))
        ∈ (Runner.classifyIteration fn versions f crs frs).2) ∧
    (((Runner.classifyIteration fn versions f crs frs).2.filter
        (fun rec => rec.1 == "no-fuzzing")).length
      = (frs.filter (fun r => r.isNone)).length) ∧
    (∀ v, (f.emptyFuzzingResult v).runResult
      = { result := { result := "no-op", output := "" }, storage := [], logs := [] }) := by
  have hcl : (Runner.classifyIteration fn versions f crs frs).2
      = Runner.mismatchLoop fn versions f (frs.findIdx Runner.isSuccessResult) base 0 frs := by
    simp [Runner.classifyIteration, h1, h2, h3]
  refine ⟨?_, ?_, fun v => rfl⟩
  · intro i hi hget
    rw [hcl]
    have hmem := mismatchLoop_mem_nofuzz fn versions f
      (frs.findIdx Runner.isSuccessResult) base frs 0 i hi hget
    simpa using hmem
  · rw [hcl]
    exact mismatchLoop_nofuzz_count fn versions f _ base frs 0

/-- C4 amended witness: a two-backend iteration where the first backend
compiled without bytecode and the second succeeded: exactly one no-fuzzing
record for index 0 appears. -/
theorem nofuzz_records_at_comparison_stage_witness :
    ("no-fuzzing", "seed.variant.0.sol", fzEx.emptyFuzzingResult "0.8.26")
      ∈ (Runner.classifyIteration "seed.variant.0.sol" ["0.8.26", "0.8.27"] fzEx
          [crSuccess] [none, some frSuccess]).2 ∧
    (fzEx.emptyFuzzingResult "x").runResult
      = { result := { result := "no-op", output := "" }, storage := [], logs := [] } := by
  have h := nofuzz_records_at_comparison_stage "seed.variant.0.sol" ["0.8.26", "0.8.27"] fzEx
    [crSuccess] [none, some frSuccess] frSuccess (by decide) (by decide) (by decide)
  exact ⟨h.1 0 (by decide) rfl, h.2.2 "x"⟩

/- ===================== C7 ===================== -/

/-- C7 counterexample: the eof compiler wrapper rejects with plain strings;
the message property of such a value is undefined, so the failed Result has
success false but NO error string at all. -/
theorem compile_error_undefined_on_string_rejection :
    (Compile.compile "eof" (.error (Compile.CompileException.other none))).success = false ∧
    (Compile.compile "eof" (.error (Compile.CompileException.other none))).error = none :=
  ⟨rfl, rfl⟩

/-- Folding diagnostics onto an accumulator only extends it on the right. -/
theorem strFoldl_extends (l : List String) :
    ∀ acc : String, ∃ s, l.foldl (fun a e => a ++ "\n" ++ e) acc = acc ++ s := by
  induction l with
  | nil => intro acc; exact ⟨"", (String.append_empty acc).symm⟩
  | cons hd tl ih =>
    intro acc
    obtain ⟨s, hs⟩ := ih (acc ++ "\n" ++ hd)
    refine ⟨"\n" ++ hd ++ s, ?_⟩
    have h0 : (hd :: tl).foldl (fun a e => a ++ "\n" ++ e) acc
        = tl.foldl (fun a e => a ++ "\n" ++ e) (acc ++ "\n" ++ hd) := rfl
    rw [h0, hs, String.append_assoc acc "\n" hd, String.append_assoc acc ("\n" ++ hd) s]

/-- Every member of the diagnostic list appears (newline-prefixed) in the
folded text. -/
theorem strFoldl_contains (l : List String) :
    ∀ (acc err : String), err ∈ l →
      ∃ pre post, l.foldl (fun a e => a ++ "\n" ++ e) acc = pre ++ ("\n" ++ err) ++ post := by
  induction l with
  | nil => intro acc err h; simp at h
  | cons hd tl ih =>
    intro acc err hmem
    rcases List.mem_cons.mp hmem with rfl | htl
    · obtain ⟨s, hs⟩ := strFoldl_extends tl (acc ++ "\n" ++ err)
      refine ⟨acc, s, ?_⟩
      have h0 : (err :: tl).foldl (fun a e => a ++ "\n" ++ e) acc
          = tl.foldl (fun a e => a ++ "\n" ++ e) (acc ++ "\n" ++ err) := rfl
      rw [h0, hs, String.append_assoc acc "\n" err]
    · have h0 : (hd :: tl).foldl (fun a e => a ++ "\n" ++ e) acc
          = tl.foldl (fun a e => a ++ "\n" ++ e) (acc ++ "\n" ++ hd) := rfl
      rw [h0]
      exact ih (acc ++ "\n" ++ hd) err htl

/-- The nested diagnostic fold only extends its accumulator. -/
theorem diagFoldl_extends (failures : List (List String)) :
    ∀ acc : String, ∃ s,
      failures.foldl (fun acc errs => errs.foldl (fun a e => a ++ "\n" ++ e) acc) acc
        = acc ++ s := by
  induction failures with
  | nil => intro acc; exact ⟨"", (String.append_empty acc).symm⟩
  | cons hd tl ih =>
    intro acc
    obtain ⟨s1, hs1⟩ := strFoldl_extends hd acc
    obtain ⟨s2, hs2⟩ := ih (hd.foldl (fun a e => a ++ "\n" ++ e) acc)
    refine ⟨s1 ++ s2, ?_⟩
    have h0 : (hd :: tl).foldl (fun acc errs => errs.foldl (fun a e => a ++ "\n" ++ e) acc) acc
        = tl.foldl (fun acc errs => errs.foldl (fun a e => a ++ "\n" ++ e) acc)
            (hd.foldl (fun a e => a ++ "\n" ++ e) acc) := rfl
    rw [h0, hs2, hs1, String.append_assoc]

/-- Every diagnostic of every failure appears in the nested fold. -/
theorem diagFoldl_contains (failures : List (List String)) :
    ∀ (acc err : String) (errs : List String), errs ∈ failures → err ∈ errs →
      ∃ pre post,
        failures.foldl (fun acc errs => errs.foldl (fun a e => a ++ "\n" ++ e) acc) acc
          = pre ++ ("\n" ++ err) ++ post := by
  induction failures with
  | nil => intro acc err errs h; simp at h
  | cons hd tl ih =>
    intro acc err errs hmem herr
    have h0 : (hd :: tl).foldl (fun acc errs => errs.foldl (fun a e => a ++ "\n" ++ e) acc) acc
        = tl.foldl (fun acc errs => errs.foldl (fun a e => a ++ "\n" ++ e) acc)
            (hd.foldl (fun a e => a ++ "\n" ++ e) acc) := rfl
    rw [h0]
    rcases List.mem_cons.mp hmem with rfl | htl
    · obtain ⟨pre, post, hpp⟩ := strFoldl_contains errs acc err herr
      obtain ⟨s, hs⟩ := diagFoldl_extends tl (errs.foldl (fun a e => a ++ "\n" ++ e) acc)
      refine ⟨pre, post ++ s, ?_⟩
      rw [hs, hpp, String.append_assoc]
    · exact ih (hd.foldl (fun a e => a ++ "\n" ++ e) acc) err errs htl herr

/-- C7 amended: compile never propagates a compiler exception: every
failure yields a Result with success false whose error field is the
caught diagnostic text; for a CompileFailedError the text starts with the
exception message and contains every diagnostic of every failure on its
own line; for an exception carrying a message the text is that message;
but for a rejection with a plain string (the eof wrapper case) the message
property, and hence the error field, is undefined. -/
theorem compile_absorbs_failures :
    (∀ (version : String) (e : Compile.CompileException),
      (Compile.compile version (.error e)).success = false ∧
      (Compile.compile version (.error e)).error = Compile.diagnosticText e) ∧
    (∀ (version msg : String) (failures : List (List String)),
      ∃ t, (Compile.compile version (.error (.compileFailed msg failures))).error = some t ∧
        (∃ s, t = msg ++ s) ∧
        (∀ errs ∈ failures, ∀ err ∈ errs, ∃ pre post, t = pre ++ ("\n" ++ err) ++ post)) ∧
    (∀ (version m : String),
      (Compile.compile version (.error (.other (some m)))).error = some m) := by
  refine ⟨fun version e => ⟨rfl, rfl⟩, ?_, fun version m => rfl⟩
  intro version msg failures
  refine ⟨failures.foldl (fun acc errs => errs.foldl (fun a e => a ++ "\n" ++ e) acc) msg,
    ?_, ?_, ?_⟩
  · rfl
  · exact diagFoldl_extends failures msg
  · intro errs hmem err herr
    exact diagFoldl_contains failures msg err errs hmem herr

/-- C7 amended witness: a concrete CompileFailedError with one failure and
one diagnostic. -/
theorem compile_absorbs_failures_witness :
    (Compile.compile "0.8.27"
        (.error (Compile.CompileException.compileFailed "boom" [["errA"]]))).success = false ∧
    (∃ t, (Compile.compile "0.8.27"
        (.error (Compile.CompileException.compileFailed "boom" [["errA"]]))).error = some t ∧
      (∃ s, t = "boom" ++ s) ∧
      (∃ pre post, t = pre ++ ("\n" ++ "errA") ++ post)) := by
  have h1 := compile_absorbs_failures.1 "0.8.27" (.compileFailed "boom" [["errA"]])
  obtain ⟨t, ht, hs, hcont⟩ := compile_absorbs_failures.2.1 "0.8.27" "boom" [["errA"]]
  exact ⟨h1.1, t, ht, hs, hcont ["errA"] (by simp) "errA" (by simp)⟩
